import Mathlib

/-!
# Verification of the CustomGTP-Vektor retrieval service

Shallow embedding of the repository `omega3team/CustomGTP-Vektor`
(files `app/rag.py`, `app/qdrant_client_utils.py`, `app/schemas.py`,
`app/main.py`) and proofs about it.

Modelling conventions:
* Python strings are Lean `String`s; `str.encode("utf-8")` is `strBytes`
  (an explicit UTF-8 encoder over the characters' code points).
* `hashlib.sha1(...).hexdigest()` is `Sha1.sha1Hex`, a byte-for-byte
  implementation of FIPS-180 SHA-1 over `Nat` with explicit `% 2^32`
  reductions (validated below against published test vectors).
* The external collaborators (OpenAI embedding endpoint, Qdrant server)
  are modelled as explicit parameters / state: the embedding endpoint is
  an oracle `String → Vec`, the vector store is a `StoreState` value
  threaded through the operations, and similarity search is a parameter
  `SearchFn` (its ranking is external to this repository).
* Vector components and scores are modelled as `Rat`.  The service never
  performs arithmetic on them — it only transports them — so the choice
  of number type does not affect any statement proved here.
* Python dictionaries are association lists (`List (String × PVal)`)
  with first-match lookup and Python's insertion/overwrite semantics.
-/

/-- Characters stripped by Python's `str.strip()` (ASCII whitespace; Python
also strips some non-ASCII Unicode spaces, which never occur in the
statements below). -/
def isPySpace (c : Char) : Bool :=
  c = ' ' ∨ c = '\t' ∨ c = '\n' ∨ c = '\x0d' ∨ c = '\x0b' ∨ c = '\x0c'

/-- Python `str.strip()` on a character list. -/
def pyStripL (l : List Char) : List Char :=
  ((l.dropWhile isPySpace).reverse.dropWhile isPySpace).reverse

/-- Python `str.strip()`. -/
def pyStrip (s : String) : String := String.mk (pyStripL s.data)

/-- UTF-8 encoding of one character (Python `chr.encode("utf-8")`), written
with `/`, `%`, `+` (arithmetically equal to the usual shift/mask form). -/
def utf8Bytes (c : Char) : List Nat :=
  let n := c.toNat
  if n < 128 then [n]
  else if n < 2048 then [192 + n / 64, 128 + n % 64]
  else if n < 65536 then [224 + n / 4096, 128 + n / 64 % 64, 128 + n % 64]
  else [240 + n / 262144, 128 + n / 4096 % 64, 128 + n / 64 % 64, 128 + n % 64]

/-- Python `s.encode("utf-8")` as a list of byte values. -/
def strBytes (s : String) : List Nat :=
  s.data.foldr (fun c acc => utf8Bytes c ++ acc) []

namespace Sha1

/-- Reduce to a 32-bit word. -/
def w32 (x : Nat) : Nat := x % 4294967296

/-- Rotate a 32-bit word left by `n` bits. -/
def rotl (n x : Nat) : Nat :=
  let y := w32 x
  w32 ((y <<< n) ||| (y >>> (32 - n)))

/-- 32-bit bitwise complement. -/
def bnot32 (x : Nat) : Nat := x ^^^ 4294967295

/-- Big-endian 8-byte encoding of the message bit length. -/
def be64 (n : Nat) : List Nat :=
  (List.range 8).map (fun i => n / 256 ^ (7 - i) % 256)

/-- SHA-1 / MD-style padding: append `0x80`, zero bytes up to 56 mod 64,
then the 64-bit big-endian bit length. -/
def pad (msg : List Nat) : List Nat :=
  let len := msg.length
  let k := (120 - (len + 1) % 64) % 64
  msg ++ 128 :: List.replicate k 0 ++ be64 (8 * len)

/-- Group bytes into big-endian 32-bit words. -/
def bytesToWords : List Nat → List Nat
  | b0 :: b1 :: b2 :: b3 :: rest =>
      (b0 * 16777216 + b1 * 65536 + b2 * 256 + b3) :: bytesToWords rest
  | _ => []

/-- Split into 64-byte blocks (structural recursion on a fuel bounded by the
list length; each step consumes 64 bytes, so the fuel never runs out). -/
def blocks64Go : Nat → List Nat → List (List Nat)
  | 0, _ => []
  | _, [] => []
  | fuel + 1, l => l.take 64 :: blocks64Go fuel (l.drop 64)

/-- Split into 64-byte blocks. -/
def blocks64 (l : List Nat) : List (List Nat) := blocks64Go l.length l

/-- One step of the message-schedule extension, on the reversed prefix of
the schedule (newest word first): `w[i] = rotl1 (w[i-3] ^ w[i-8] ^ w[i-14]
^ w[i-16])`. -/
def extendStep (rw : List Nat) : List Nat :=
  rotl 1 (((rw.getD 2 0) ^^^ (rw.getD 7 0)) ^^^ ((rw.getD 13 0) ^^^ (rw.getD 15 0))) :: rw

/-- Extend 16 schedule words to 80. -/
def extendWords (ws : List Nat) : List Nat :=
  ((List.range 64).foldl (fun rw _ => extendStep rw) ws.reverse).reverse

/-- The five 32-bit chaining words of SHA-1. -/
structure Digest where
  h0 : Nat
  h1 : Nat
  h2 : Nat
  h3 : Nat
  h4 : Nat
deriving DecidableEq, Repr

/-- Round function and constant for round `i`. -/
def fK (i b c d : Nat) : Nat × Nat :=
  if i < 20 then ((b &&& c) ||| (bnot32 b &&& d), 1518500249)
  else if i < 40 then (b ^^^ c ^^^ d, 1859775393)
  else if i < 60 then ((b &&& c) ||| (b &&& d) ||| (c &&& d), 2400959708)
  else (b ^^^ c ^^^ d, 3395469782)

/-- One SHA-1 round: state is the round index and the working variables. -/
def roundStep (st : Nat × Digest) (w : Nat) : Nat × Digest :=
  let i := st.1
  let s := st.2
  let fk := fK i s.h1 s.h2 s.h3
  let temp := w32 (rotl 5 s.h0 + fk.1 + s.h4 + fk.2 + w)
  (i + 1, ⟨temp, s.h0, rotl 30 s.h1, s.h2, s.h3⟩)

/-- Process one 64-byte block: run 80 rounds and add the result into the
chaining words modulo `2^32`. -/
def processBlock (h : Digest) (block : List Nat) : Digest :=
  let ws := extendWords (bytesToWords block)
  let fin := (ws.foldl roundStep (0, h)).2
  ⟨w32 (h.h0 + fin.h0), w32 (h.h1 + fin.h1), w32 (h.h2 + fin.h2),
   w32 (h.h3 + fin.h3), w32 (h.h4 + fin.h4)⟩

/-- The SHA-1 initial chaining value. -/
def initH : Digest :=
  ⟨1732584193, 4023233417, 2562383102, 271733878, 3285377520⟩

/-- SHA-1 digest (five chaining words) of a string's UTF-8 bytes. -/
def sha1Digest (s : String) : Digest :=
  (blocks64 (pad (strBytes s))).foldl processBlock initH

/-- Lowercase hexadecimal digit. -/
def hexDigit (n : Nat) : Char :=
  if n < 10 then Char.ofNat (48 + n) else Char.ofNat (87 + n)

/-- Eight lowercase hex characters of a 32-bit word, most significant first. -/
def hex8 (n : Nat) : List Char :=
  (List.range 8).map (fun i => hexDigit (n / 16 ^ (7 - i) % 16))

/-- `hashlib.sha1(s.encode("utf-8")).hexdigest()`. -/
def sha1Hex (s : String) : String :=
  let h := sha1Digest s
  String.mk (hex8 h.h0 ++ hex8 h.h1 ++ hex8 h.h2 ++ hex8 h.h3 ++ hex8 h.h4)

/-- All five chaining words fit in 32 bits. -/
def Bounded (d : Digest) : Prop :=
  d.h0 < 4294967296 ∧ d.h1 < 4294967296 ∧ d.h2 < 4294967296 ∧
  d.h3 < 4294967296 ∧ d.h4 < 4294967296

/-- The 160-bit digest packed into one natural number. -/
def sha1Num (s : String) : Nat :=
  let d := sha1Digest s
  d.h0 * 4294967296 ^ 4 + d.h1 * 4294967296 ^ 3 + d.h2 * 4294967296 ^ 2 +
  d.h3 * 4294967296 + d.h4

end Sha1


namespace App

/-- Payload / metadata values (`Any` in `schemas.py`).  The claims treat
values opaquely, so two representative constructors suffice. -/
inductive PVal where
  | str : String → PVal
  | int : Int → PVal
deriving DecidableEq, Repr

/-- A Python `dict[str, Any]` as an ordered association list with unique-key
insertion semantics (`dictInsert` below). -/
abbrev Payload := List (String × PVal)

/-- First-match lookup, `d.get(k)` / `d[k]` on a dict whose keys are unique. -/
def lookupP (d : Payload) (k : String) : Option PVal :=
  (d.find? (fun kv => kv.1 = k)).map (fun kv => kv.2)

/-- Python dict insertion `d[k] = v`: overwrite in place when the key exists
(keeping its position), append otherwise. -/
def dictInsert (d : Payload) (k : String) (v : PVal) : Payload :=
  if d.any (fun kv => kv.1 = k) then
    d.map (fun kv => if kv.1 = k then (k, v) else kv)
  else d ++ [(k, v)]

/-- The payload built by `upsert_items`:
`{"text": i.text, **(i.metadata or {})}` — the dict literal starts with the
`text` entry and then merges the metadata entries over it, so a metadata
entry with key `"text"` overwrites the item's own text. -/
def mkPayload (text : String) (m : Payload) : Payload :=
  m.foldl (fun d kv => dictInsert d kv.1 kv.2) [("text", PVal.str text)]

/-- Value of the last occurrence of key `k` in the (not yet merged) metadata
list; `none` when the key is absent.  For a genuine Python dict (unique
keys) this is the value at `k`. -/
def lastVal (m : Payload) (k : String) : Option PVal :=
  (m.reverse.find? (fun kv => kv.1 = k)).map (fun kv => kv.2)

/-- `schemas.UpsertItem`. -/
structure UpsertItem where
  id : Option String
  text : String
  metadata : Option Payload
deriving DecidableEq, Repr

/-- Embedding vectors (`List[float]`).  The service never computes with the
components, so they are modelled as rationals. -/
abbrev Vec := List Rat

/-- `schemas.RetrievedChunk`.  `text` is kept as a `PVal` because
`payload.get("text", "")` can surface a non-string value when caller
metadata overwrote the `text` key. -/
structure RetrievedChunk where
  id : String
  text : PVal
  score : Rat
  metadata : Payload
deriving DecidableEq, Repr

/-- A raw hit returned by the store's similarity search
(`id`, `score`, optional `payload`). -/
structure Hit where
  id : String
  score : Rat
  payload : Option Payload
deriving DecidableEq, Repr

/-- A stored point (`PointStruct`). -/
structure StoredPoint where
  id : String
  vector : Vec
  payload : Payload
deriving DecidableEq, Repr

/-- Distance metric of a collection. -/
inductive DistKind where
  | cosine
  | dot
  | euclid
deriving DecidableEq, Repr

/-- A named collection in the vector store. -/
structure Collection where
  name : String
  dim : Nat
  dist : DistKind
  points : List StoredPoint
deriving DecidableEq, Repr

/-- The externally stored state: the store's list of collections. -/
structure StoreState where
  collections : List Collection
deriving DecidableEq, Repr

/-- `QDRANT_COLLECTION = os.getenv("QDRANT_COLLECTION", "omega3-QD")`
(modelled at its default; the claims do not depend on the name). -/
def QDRANT_COLLECTION : String := "omega3-QD"

/-- `EMBED_DIM = 1536` (`qdrant_client_utils.py` line 9). -/
def EMBED_DIM : Nat := 1536

/-- `EMBEDDING_MODEL = os.getenv("EMBEDDING_MODEL", "text-embedding-3-small")`
(modelled at its default). -/
def EMBEDDING_MODEL : String := "text-embedding-3-small"

/-- `ensure_collection`: create the configured collection (dimension
`EMBED_DIM`, cosine distance, no points) when its name is not among the
store's collection names. -/
def ensure_collection (s : StoreState) : StoreState :=
  if QDRANT_COLLECTION ∈ s.collections.map (fun c => c.name) then s
  else ⟨s.collections ++ [⟨QDRANT_COLLECTION, EMBED_DIM, DistKind.cosine, []⟩]⟩

/-- Overwrite-by-id upsert of one point into a point list (the semantics of
the external store's upsert, spec §4.2). -/
def upsertOne (pts : List StoredPoint) (p : StoredPoint) : List StoredPoint :=
  if pts.any (fun q => q.id = p.id) then
    pts.map (fun q => if q.id = p.id then p else q)
  else pts ++ [p]

/-- `upsert_points`: upsert every point into the configured collection. -/
def upsert_points (s : StoreState) (ps : List StoredPoint) : StoreState :=
  ⟨s.collections.map (fun c =>
    if c.name = QDRANT_COLLECTION then
      { c with points := ps.foldl upsertOne c.points }
    else c)⟩

/-- One request to the external embedding endpoint
(`_oai.embeddings.create(model=EMBEDDING_MODEL, input=t)`). -/
structure EmbedCall where
  model : String
  input : String
deriving DecidableEq, Repr

/-- `embed_texts`: loop over the texts, one endpoint call per text, append
`emb.data[0].embedding`.  The endpoint's response for a single input text is
the oracle's value; the second component records the calls issued. -/
def embed_texts (oracle : String → Vec) (texts : List String) :
    List Vec × List EmbedCall :=
  texts.foldl
    (fun acc t => (acc.1 ++ [oracle t], acc.2 ++ [⟨EMBEDDING_MODEL, t⟩]))
    ([], [])

/-- `make_id`: hex SHA-1 of the UTF-8 bytes of `s`, with a fresh UUID as
fallback when the digest is empty (`h or str(uuid.uuid4())`).  The fresh
UUID is passed as a parameter; the branch is unreachable
(`Sha1.sha1Hex_ne_empty`). -/
def make_id (uuid4 : String) (s : String) : String :=
  let h := Sha1.sha1Hex s
  if h = "" then uuid4 else h

/-- The id resolved for one item: `i.id or make_id(i.text)` — Python `or`
takes the right operand when `i.id` is `None` **or** the empty string. -/
def resolvedId (uuid4 : String) (i : UpsertItem) : String :=
  match i.id with
  | some x => if x = "" then make_id uuid4 i.text else x
  | none => make_id uuid4 i.text

/-- `upsert_items`: embed all texts, build one `PointStruct` per item
(resolved id, vector, payload merging text and metadata), upsert them, and
return the point ids. -/
def upsert_items (oracle : String → Vec) (uuid4 : String)
    (items : List UpsertItem) (s : StoreState) : StoreState × List String :=
  let s1 := ensure_collection s
  let texts := items.map (fun i => i.text)
  let vecs := (embed_texts oracle texts).1
  let points := (items.zip vecs).foldl
    (fun pts iv =>
      pts ++ [⟨resolvedId uuid4 iv.1, iv.2,
               mkPayload iv.1.text (iv.1.metadata.getD [])⟩])
    []
  (upsert_points s1 points, points.map (fun p => p.id))

/-- The external store's similarity search, as a parameter: the repository
delegates ranking to the Qdrant server (`client.search`), a read-only call.
Arguments mirror `search_vectors`: state, query vector, `limit=top_k`,
`score_threshold`. -/
abbrev SearchFn := StoreState → Vec → Nat → Option Rat → List Hit

/-- `search_vectors`: pass the query vector, `top_k` and threshold through
to the store's search. -/
def search_vectors (f : SearchFn) (s : StoreState) (v : Vec) (top_k : Nat)
    (thr : Option Rat) : List Hit :=
  f s v top_k thr

/-- The per-hit mapping inside `retrieve`'s loop: `payload = h.payload or {}`,
`text = payload.get("text", "")`, metadata keeps every payload entry except
key `"text"`, `id = str(h.id)`, `score = float(h.score)`. -/
def hitToChunk (h : Hit) : RetrievedChunk :=
  let payload := h.payload.getD []
  ⟨h.id, (lookupP payload "text").getD (PVal.str ""),
   h.score, payload.filter (fun kv => ¬ kv.1 = "text")⟩

/-- `retrieve`: ensure the collection, embed the query (`embed_texts([q])[0]`),
search, and map each hit to a `RetrievedChunk` in the store's order.  The
returned state is the state after the call (the only state-changing step is
`ensure_collection`; `client.search` is read-only). -/
def retrieve (oracle : String → Vec) (f : SearchFn) (query : String)
    (top_k : Nat) (thr : Option Rat) (s : StoreState) :
    StoreState × List RetrievedChunk :=
  let s1 := ensure_collection s
  let vec := ((embed_texts oracle [query]).1).headD []
  let hits := search_vectors f s1 vec top_k thr
  (s1, hits.foldl (fun out h => out ++ [hitToChunk h]) [])

/-- `authorization.startswith("Bearer ")`, over the character list. -/
def isBearer (auth : String) : Bool :=
  decide (auth.data.take 7 = "Bearer ".data)

/-- `authorization.split(" ", 1)[1].strip()` under `startswith("Bearer ")`:
the first space of such a header is the one at index 6, so the second split
component is everything after the first 7 characters. -/
def bearerToken (auth : String) : String :=
  pyStrip (String.mk (auth.data.drop 7))

/-- `main.verify_auth`.  `tok` is the configured `AUTH_TOKEN` (`none` when
the environment variable is unset); `authorization` is the request's
`Authorization` header, `""` when the header is missing (FastAPI
`Header(default="")`).  Result: `ok` = request proceeds, `error n` =
`HTTPException(status_code=n)`.  The token comparison is on UTF-8 bytes,
as in the source. -/
def verify_auth (tok : Option String) (authorization : String) :
    Except Nat Unit :=
  let header_token :=
    if isBearer authorization then bearerToken authorization else ""
  if tok = none ∨ tok = some "" then Except.ok ()
  else if ¬ isBearer authorization then Except.error 401
  else if strBytes header_token = strBytes (tok.getD "") then Except.ok ()
  else Except.error 403

/-- The point `upsert_items` builds for one item (used to characterize the
construction loop). -/
def pointOf (uuid4 : String) (oracle : String → Vec) (i : UpsertItem) :
    StoredPoint :=
  ⟨resolvedId uuid4 i, oracle i.text, mkPayload i.text (i.metadata.getD [])⟩

/-- The raw hits `retrieve` maps over: the store's answer for the
post-`ensure_collection` state and the embedded query vector. -/
def storeHits (oracle : String → Vec) (f : SearchFn) (q : String) (k : Nat)
    (thr : Option Rat) (s : StoreState) : List Hit :=
  search_vectors f (ensure_collection s) (oracle q) k thr

/-- A concrete well-behaved search engine (used to witness the assumptions
of the top-k/threshold claim): score every stored point `1`, filter by the
threshold, return at most `top_k`. -/
def demoSearch : SearchFn := fun s _ n t =>
  (((s.collections.foldl (fun acc c => acc ++ c.points) []).map
      (fun p => (⟨p.id, 1, some p.payload⟩ : Hit))).filter
    (fun h => match t with
      | none => true
      | some th => decide (th ≤ h.score))).take n

/-- A store state holding the configured collection with one point. -/
def demoState : StoreState :=
  ⟨[⟨QDRANT_COLLECTION, EMBED_DIM, DistKind.cosine,
     [⟨"p1", [], [("text", PVal.str "hi")]⟩]⟩]⟩

/-- Default chunk used with `List.getD` in indexed statements. -/
def chunk0 : RetrievedChunk := ⟨"", PVal.str "", 0, []⟩

end App

namespace Sha1

lemma w32_lt (x : Nat) : w32 x < 4294967296 :=
  Nat.mod_lt _ (by norm_num)

lemma processBlock_bounded (h : Digest) (b : List Nat) :
    Bounded (processBlock h b) :=
  ⟨w32_lt _, w32_lt _, w32_lt _, w32_lt _, w32_lt _⟩

lemma foldl_processBlock_bounded (l : List (List Nat)) (h : Digest)
    (hb : Bounded h) : Bounded (l.foldl processBlock h) := by
  induction l generalizing h with
  | nil => exact hb
  | cons b rest ih => exact ih _ (processBlock_bounded h b)

lemma sha1Digest_bounded (s : String) : Bounded (sha1Digest s) :=
  foldl_processBlock_bounded _ _ (by constructor <;> norm_num [initH])

lemma sha1Num_lt (s : String) : sha1Num s < 4294967296 ^ 5 := by
  obtain ⟨b0, b1, b2, b3, b4⟩ := sha1Digest_bounded s
  unfold sha1Num
  push_cast
  nlinarith [pow_pos (show (0:ℕ) < 4294967296 by norm_num) 4]

lemma sha1Digest_eq_of_num_eq {s t : String}
    (h : sha1Num s = sha1Num t) : sha1Digest s = sha1Digest t := by
  obtain ⟨a0, a1, a2, a3, a4⟩ := sha1Digest_bounded s
  obtain ⟨b0, b1, b2, b3, b4⟩ := sha1Digest_bounded t
  unfold sha1Num at h
  simp only at h
  have h0 : (sha1Digest s).h0 = (sha1Digest t).h0 := by omega
  have h1 : (sha1Digest s).h1 = (sha1Digest t).h1 := by omega
  have h2 : (sha1Digest s).h2 = (sha1Digest t).h2 := by omega
  have h3 : (sha1Digest s).h3 = (sha1Digest t).h3 := by omega
  have h4 : (sha1Digest s).h4 = (sha1Digest t).h4 := by omega
  cases hs : sha1Digest s; cases ht : sha1Digest t
  simp_all

lemma sha1Hex_eq_of_num_eq {s t : String}
    (h : sha1Num s = sha1Num t) : sha1Hex s = sha1Hex t := by
  unfold sha1Hex
  rw [sha1Digest_eq_of_num_eq h]

/-- SHA-1 is not injective: its hex digests range over a finite set while
there are infinitely many strings (pigeonhole).  No explicit colliding pair
is produced; existence is enough to refute universal distinctness. -/
lemma sha1Hex_collision : ∃ s t : String, s ≠ t ∧ sha1Hex s = sha1Hex t := by
  obtain ⟨s, t, hne, heq⟩ :=
    Finite.exists_ne_map_eq_of_infinite
      (fun s : String => (⟨sha1Num s, sha1Num_lt s⟩ : Fin (4294967296 ^ 5)))
  exact ⟨s, t, hne, sha1Hex_eq_of_num_eq (congrArg Fin.val heq)⟩

lemma length_hex8 (n : Nat) : (hex8 n).length = 8 := by
  simp [hex8]

/-- The hex digest always has 40 characters. -/
lemma sha1Hex_length (s : String) : (sha1Hex s).length = 40 := by
  unfold sha1Hex
  simp only [String.length, String.data]
  simp [length_hex8]

/-- The hex digest is never the empty string (so the `or str(uuid.uuid4())`
fallback in `make_id` is unreachable). -/
lemma sha1Hex_ne_empty (s : String) : sha1Hex s ≠ "" := by
  intro h
  have := sha1Hex_length s
  rw [h] at this
  simp [String.length] at this

end Sha1

namespace App

/-! ### Characterizations of the loops -/

lemma foldl_push_eq_map {α β : Type} (f : α → β) (l : List α) (acc : List β) :
    l.foldl (fun a x => a ++ [f x]) acc = acc ++ l.map f := by
  induction l generalizing acc with
  | nil => simp
  | cons x xs ih => simp [ih]

lemma zip_map_self {α β γ : Type} (g : α → β) (f : α × β → γ) (l : List α) :
    (l.zip (l.map g)).map f = l.map (fun x => f (x, g x)) := by
  induction l with
  | nil => rfl
  | cons x xs ih => simp [ih]

lemma embed_texts_go (oracle : String → Vec) (ts : List String)
    (acc : List Vec × List EmbedCall) :
    ts.foldl
        (fun acc t => (acc.1 ++ [oracle t], acc.2 ++ [⟨EMBEDDING_MODEL, t⟩]))
        acc
      = (acc.1 ++ ts.map oracle,
         acc.2 ++ ts.map (fun t => ⟨EMBEDDING_MODEL, t⟩)) := by
  induction ts generalizing acc with
  | nil => simp
  | cons t ts ih => simp [ih]

lemma embed_texts_eq (oracle : String → Vec) (ts : List String) :
    embed_texts oracle ts
      = (ts.map oracle, ts.map (fun t => ⟨EMBEDDING_MODEL, t⟩)) := by
  unfold embed_texts
  simpa using embed_texts_go oracle ts ([], [])

lemma upsert_items_eq (oracle : String → Vec) (uuid4 : String)
    (items : List UpsertItem) (s : StoreState) :
    upsert_items oracle uuid4 items s
      = (upsert_points (ensure_collection s) (items.map (pointOf uuid4 oracle)),
         items.map (fun i => resolvedId uuid4 i)) := by
  simp only [upsert_items, embed_texts_eq, List.map_map]
  rw [foldl_push_eq_map
    (fun iv : UpsertItem × Vec =>
      (⟨resolvedId uuid4 iv.1, iv.2,
        mkPayload iv.1.text (iv.1.metadata.getD [])⟩ : StoredPoint))]
  rw [zip_map_self]
  simp only [List.nil_append, List.map_map]
  rfl

lemma retrieve_eq (oracle : String → Vec) (f : SearchFn) (q : String)
    (k : Nat) (thr : Option Rat) (s : StoreState) :
    retrieve oracle f q k thr s
      = (ensure_collection s,
         (search_vectors f (ensure_collection s) (oracle q) k thr).map
           hitToChunk) := by
  unfold retrieve
  rw [embed_texts_eq]
  simp [foldl_push_eq_map]

/-! ### Dictionary lookup lemmas -/

lemma lookupP_overwrite (d : Payload) (k : String) (v : PVal)
    (hmem : d.any (fun kv => kv.1 = k) = true) :
    lookupP (d.map (fun kv => if kv.1 = k then (k, v) else kv)) k = some v := by
  induction d with
  | nil => simp at hmem
  | cons kv rest ih =>
    by_cases hk : kv.1 = k
    · simp [lookupP, hk, List.find?]
    · simp only [List.any_cons, Bool.or_eq_true, decide_eq_true_eq] at hmem
      rcases hmem with h | h
      · exact absurd h hk
      · simpa [lookupP, hk, List.find?] using ih h

lemma lookupP_overwrite_other (d : Payload) (k k2 : String) (v : PVal)
    (hne : k2 ≠ k) :
    lookupP (d.map (fun kv => if kv.1 = k then (k, v) else kv)) k2
      = lookupP d k2 := by
  induction d with
  | nil => rfl
  | cons kv rest ih =>
    by_cases hk : kv.1 = k
    · have h1 : ¬ (k = k2) := fun h => hne h.symm
      have h2 : ¬ (kv.1 = k2) := by rw [hk]; exact h1
      simpa [lookupP, hk, List.find?, h1, h2] using ih
    · by_cases hk2 : kv.1 = k2
      · simp [lookupP, hk, List.find?, hk2, hne]
      · simpa [lookupP, hk, List.find?, hk2] using ih

lemma lookupP_dictInsert (d : Payload) (k : String) (v : PVal) (k2 : String) :
    lookupP (dictInsert d k v) k2
      = if k2 = k then some v else lookupP d k2 := by
  unfold dictInsert
  by_cases hmem : d.any (fun kv => kv.1 = k) = true
  · by_cases hk : k2 = k
    · subst hk
      simp [hmem, lookupP_overwrite d k2 v hmem]
    · simp [hmem, hk, lookupP_overwrite_other d k k2 v hk]
  · simp only [hmem, if_false, Bool.false_eq_true]
    unfold lookupP
    rw [List.find?_append]
    by_cases hk : k2 = k
    · subst hk
      have hnone : d.find? (fun kv => kv.1 = k2) = none := by
        rw [List.find?_eq_none]
        intro kv hkv
        simp only [Bool.not_eq_true, decide_eq_false_iff_not]
        intro hcontra
        exact hmem (List.any_eq_true.mpr ⟨kv, hkv, by simp [hcontra]⟩)
      simp [hnone, List.find?]
    · have h1 : ¬ (k = k2) := fun h => hk h.symm
      cases hfind : d.find? (fun kv => kv.1 = k2) <;>
        simp [hfind, List.find?, h1, hk, Option.or]

lemma lastVal_cons (kv : String × PVal) (rest : Payload) (k : String) :
    lastVal (kv :: rest) k
      = (lastVal rest k).or (if kv.1 = k then some kv.2 else none) := by
  unfold lastVal
  rw [List.reverse_cons, List.find?_append]
  cases hfind : rest.reverse.find? (fun x => x.1 = k) <;>
    by_cases hk : kv.1 = k <;>
      simp [hfind, List.find?, hk, Option.or]

lemma lookupP_mergeFold (m : Payload) (d : Payload) (k : String) :
    lookupP (m.foldl (fun d kv => dictInsert d kv.1 kv.2) d) k
      = (lastVal m k).or (lookupP d k) := by
  induction m generalizing d with
  | nil => simp [lastVal]
  | cons kv rest ih =>
    rw [List.foldl_cons, ih, lastVal_cons, lookupP_dictInsert]
    by_cases hk : kv.1 = k
    · subst hk
      cases hlast : lastVal rest kv.1 <;> simp [Option.or]
    · have hk2 : ¬ (k = kv.1) := fun h => hk h.symm
      cases hlast : lastVal rest k <;> simp [Option.or, hk, hk2]

lemma lookupP_mkPayload (t : String) (m : Payload) :
    lookupP (mkPayload t m) "text"
      = (lastVal m "text").or (some (PVal.str t)) := by
  unfold mkPayload
  rw [lookupP_mergeFold]
  simp [lookupP, List.find?]

end App

/-! ### UTF-8 encoding is injective (hence byte comparison of tokens is
string comparison) -/

lemma utf8Bytes_ne_nil (c : Char) : utf8Bytes c ≠ [] := by
  simp only [utf8Bytes]
  split_ifs <;> simp

lemma char_toNat_lt (c : Char) : c.toNat < 1114112 := by
  have h := c.valid
  unfold UInt32.isValidChar Nat.isValidChar at h
  rcases h with h | ⟨h1, h2⟩
  · exact lt_trans h (by norm_num)
  · exact h2

lemma char_eq_of_toNat_eq {c d : Char} (h : c.toNat = d.toNat) : c = d :=
  Char.ext (UInt32.ext h)

/-- The first byte of a UTF-8 character encoding determines how many bytes
the encoding has, so equal concatenations split at the same place. -/
lemma utf8Bytes_append_inj {c1 c2 : Char} {s1 s2 : List Nat}
    (h : utf8Bytes c1 ++ s1 = utf8Bytes c2 ++ s2) : c1 = c2 ∧ s1 = s2 := by
  have hb1 := char_toNat_lt c1
  have hb2 := char_toNat_lt c2
  simp only [utf8Bytes] at h
  split_ifs at h
  all_goals
    simp only [List.cons_append, List.nil_append, List.cons.injEq] at h
  all_goals
    first
    | exact ⟨char_eq_of_toNat_eq (by omega), h.2⟩
    | exact ⟨char_eq_of_toNat_eq (by omega), h.2.2⟩
    | exact ⟨char_eq_of_toNat_eq (by omega), h.2.2.2⟩
    | exact ⟨char_eq_of_toNat_eq (by omega), h.2.2.2.2⟩
    | exact absurd h.1 (by omega)

lemma utf8List_inj : ∀ l1 l2 : List Char,
    l1.foldr (fun c acc => utf8Bytes c ++ acc) []
      = l2.foldr (fun c acc => utf8Bytes c ++ acc) [] → l1 = l2 := by
  intro l1
  induction l1 with
  | nil =>
    intro l2 h
    cases l2 with
    | nil => rfl
    | cons c r =>
      exfalso
      simp only [List.foldr] at h
      exact utf8Bytes_ne_nil c (List.append_eq_nil.mp h.symm).1
  | cons c r ih =>
    intro l2 h
    cases l2 with
    | nil =>
      exfalso
      simp only [List.foldr] at h
      exact utf8Bytes_ne_nil c (List.append_eq_nil.mp h).1
    | cons c2 r2 =>
      simp only [List.foldr] at h
      obtain ⟨hc, hs⟩ := utf8Bytes_append_inj h
      rw [hc, ih _ hs]

/-- `s.encode("utf-8") == t.encode("utf-8")` exactly when `s == t`. -/
lemma strBytes_inj {s t : String} (h : strBytes s = strBytes t) : s = t := by
  have hd := utf8List_inj s.data t.data h
  cases s
  cases t
  exact congrArg String.mk hd

/-! ### Remaining shared lemmas -/

lemma getD_map_lt {α β : Type} (f : α → β) (l : List α) (j : Nat)
    (hj : j < l.length) (d : β) :
    (l.map f).getD j d = f (l.get ⟨j, hj⟩) := by
  induction l generalizing j with
  | nil => simp at hj
  | cons x xs ih =>
    cases j with
    | zero => rfl
    | succ n => simpa [List.getD] using ih n (by simpa using hj)

lemma string_mk_data (s : String) : String.mk s.data = s := by
  cases s
  rfl

namespace App

lemma make_id_eq_sha1 (u s : String) : make_id u s = Sha1.sha1Hex s := by
  simp [make_id, Sha1.sha1Hex_ne_empty s]

lemma resolvedId_none (u : String) (t : String) (m : Option Payload) :
    resolvedId u ⟨none, t, m⟩ = Sha1.sha1Hex t := by
  simp [resolvedId, make_id_eq_sha1]

lemma demoSearch_lim : ∀ st (v : Vec) n t, (demoSearch st v n t).length ≤ n := by
  intro st v n t
  simp [demoSearch, List.length_take]

lemma demoSearch_thr : ∀ st (v : Vec) n t r,
    r ∈ demoSearch st v n (some t) → t ≤ r.score := by
  intro st v n t r hr
  simp only [demoSearch] at hr
  have hmem := List.mem_of_mem_take hr
  rw [List.mem_filter] at hmem
  simpa using hmem.2

lemma isBearer_append (s : String) : isBearer ("Bearer " ++ s) = true := by
  have hd : ("Bearer " ++ s).data = "Bearer ".data ++ s.data := rfl
  simp only [isBearer, hd, decide_eq_true_eq]
  have h7 : ("Bearer ".data).length = 7 := by decide
  rw [← h7, List.take_left]

lemma bearerToken_append (s : String) :
    bearerToken ("Bearer " ++ s) = pyStrip s := by
  have hd : ("Bearer " ++ s).data = "Bearer ".data ++ s.data := rfl
  have h7 : ("Bearer ".data).length = 7 := by decide
  simp only [bearerToken, hd]
  rw [← h7, List.drop_left, string_mk_data]

end App

/-! ## Claims -/

/-- **C1 (counterexample).** The claim "two ingests of different texts
resolve to different ids" is refuted: the resolved id of an item without an
explicit id is its SHA-1 hex digest, whose values range over a finite set,
so by pigeonhole (`Sha1.sha1Hex_collision`) two distinct texts resolve to
the same id. -/
theorem C1_counterexample :
    ¬ ∀ s t : String, s ≠ t →
      (App.upsert_items (fun _ => []) "" [⟨none, s, none⟩] ⟨[]⟩).2
        ≠ (App.upsert_items (fun _ => []) "" [⟨none, t, none⟩] ⟨[]⟩).2 := by
  intro hall
  obtain ⟨s, t, hne, heq⟩ := Sha1.sha1Hex_collision
  refine hall s t hne ?_
  rw [App.upsert_items_eq, App.upsert_items_eq]
  simp [App.resolvedId_none, heq]

/-- **C1 (amended, proved).** For items ingested without an explicit id the
resolved id is a deterministic function of the text: byte-identical texts
resolve to the same id, and texts whose SHA-1 digests differ resolve to
different ids.  (Unconditional distinctness for all pairs of distinct texts
is impossible — see `C1_counterexample`.) -/
theorem C1_resolved_id (o1 o2 : String → App.Vec) (u1 u2 : String)
    (st1 st2 : App.StoreState) (s t : String) :
    (s = t →
      (App.upsert_items o1 u1 [⟨none, s, none⟩] st1).2
        = (App.upsert_items o2 u2 [⟨none, t, none⟩] st2).2) ∧
    (Sha1.sha1Hex s ≠ Sha1.sha1Hex t →
      (App.upsert_items o1 u1 [⟨none, s, none⟩] st1).2
        ≠ (App.upsert_items o2 u2 [⟨none, t, none⟩] st2).2) := by
  rw [App.upsert_items_eq, App.upsert_items_eq]
  simp only [List.map_cons, List.map_nil, App.resolvedId_none]
  constructor
  · intro h
    rw [h]
  · intro hne h
    simp only [List.cons.injEq, and_true] at h
    exact hne h

set_option maxRecDepth 40000 in
/-- **C1 (witness).** Concrete instance: re-ingesting `"a"` yields the same
id; `"a"` and `"b"` have different SHA-1 digests (evaluated) and yield
different ids. -/
theorem C1_witness :
    (App.upsert_items (fun _ => []) "u1" [⟨none, "a", none⟩] ⟨[]⟩).2
      = (App.upsert_items (fun _ => []) "u2" [⟨none, "a", none⟩] ⟨[]⟩).2 ∧
    (App.upsert_items (fun _ => []) "u1" [⟨none, "a", none⟩] ⟨[]⟩).2
      ≠ (App.upsert_items (fun _ => []) "u2" [⟨none, "b", none⟩] ⟨[]⟩).2 :=
  ⟨(C1_resolved_id (fun _ => []) (fun _ => []) "u1" "u2" ⟨[]⟩ ⟨[]⟩ "a" "a").1 rfl,
   (C1_resolved_id (fun _ => []) (fun _ => []) "u1" "u2" ⟨[]⟩ ⟨[]⟩ "a" "b").2 (by decide)⟩

set_option maxRecDepth 40000 in
/-- **C7 (counterexample).** An item whose explicit id is the empty string
is present (`id = some ""`), yet ingest does not return that explicit id:
Python's `i.id or make_id(i.text)` treats `""` as falsy, so the returned id
is the SHA-1 digest of `"hello"` (evaluated against the published digest). -/
theorem C7_counterexample :
    (App.upsert_items (fun _ => []) "fresh-uuid4" [⟨some "", "hello", none⟩]
        ⟨[]⟩).2 ≠ [""] ∧
    (App.upsert_items (fun _ => []) "fresh-uuid4" [⟨some "", "hello", none⟩]
        ⟨[]⟩).2 = ["aaf4c61ddcc5e8a2dabede0f3b482cd9aea9434d"] := by
  refine ⟨?_, ?_⟩ <;> decide

/-- **C7 (amended, proved).** Ingest returns exactly one id per input item,
in input order; each id is the item's explicit id when a **non-empty** one
is present and the content-derived SHA-1 hash of its text otherwise (absent
or empty explicit id). -/
theorem C7_ingest_ids (oracle : String → App.Vec) (u : String)
    (items : List App.UpsertItem) (st : App.StoreState) :
    (App.upsert_items oracle u items st).2.length = items.length ∧
    ∀ j (hj : j < items.length),
      (∀ x, (items.get ⟨j, hj⟩).id = some x → x ≠ "" →
        ((App.upsert_items oracle u items st).2).getD j "" = x) ∧
      ((items.get ⟨j, hj⟩).id = none ∨ (items.get ⟨j, hj⟩).id = some "" →
        ((App.upsert_items oracle u items st).2).getD j ""
          = Sha1.sha1Hex (items.get ⟨j, hj⟩).text) := by
  rw [App.upsert_items_eq]
  refine ⟨by simp, ?_⟩
  intro j hj
  rw [getD_map_lt _ _ j hj]
  constructor
  · intro x hx hxne
    simp only [List.get_eq_getElem] at hx
    simp [App.resolvedId, hx, hxne]
  · rintro (hnone | hempty)
    · simp only [List.get_eq_getElem] at hnone
      simp [App.resolvedId, hnone, App.make_id_eq_sha1]
    · simp only [List.get_eq_getElem] at hempty
      simp [App.resolvedId, hempty, App.make_id_eq_sha1]

/-- **C7 (witness).** A non-empty explicit id is returned unchanged. -/
theorem C7_witness :
    ((App.upsert_items (fun _ => []) "u" [⟨some "k1", "t1", none⟩] ⟨[]⟩).2).getD 0 ""
      = "k1" :=
  ((C7_ingest_ids (fun _ => []) "u" [⟨some "k1", "t1", none⟩] ⟨[]⟩).2 0
    (by decide)).1 "k1" rfl (by decide)

/-- **C10 (proved).** An explicit empty-string id is treated as if no id
were supplied — the resolved id is the SHA-1 hash of the text — and every
id returned by ingest is non-empty (explicit non-empty ids are returned
as-is; hash ids are 40-character digests). -/
theorem C10_empty_id_hash (oracle : String → App.Vec) (u : String)
    (items : List App.UpsertItem) (st : App.StoreState) :
    (∀ j (hj : j < items.length), (items.get ⟨j, hj⟩).id = some "" →
      ((App.upsert_items oracle u items st).2).getD j ""
        = Sha1.sha1Hex (items.get ⟨j, hj⟩).text) ∧
    ∀ idv ∈ (App.upsert_items oracle u items st).2, idv ≠ "" := by
  rw [App.upsert_items_eq]
  constructor
  · intro j hj hempty
    rw [getD_map_lt _ _ j hj]
    simp only [List.get_eq_getElem] at hempty
    simp [App.resolvedId, hempty, App.make_id_eq_sha1]
  · intro idv hmem
    simp only [List.mem_map] at hmem
    obtain ⟨i, hi, rfl⟩ := hmem
    cases hid : i.id with
    | none =>
      simp [App.resolvedId, hid, App.make_id_eq_sha1, Sha1.sha1Hex_ne_empty]
    | some x =>
      by_cases hx : x = "" <;>
        simp [App.resolvedId, hid, hx, App.make_id_eq_sha1,
          Sha1.sha1Hex_ne_empty]

/-- **C10 (witness).** The empty-string-id item resolves to the hash of its
text. -/
theorem C10_witness :
    ((App.upsert_items (fun _ => []) "u" [⟨some "", "a", none⟩] ⟨[]⟩).2).getD 0 ""
      = Sha1.sha1Hex "a" :=
  (C10_empty_id_hash (fun _ => []) "u" [⟨some "", "a", none⟩] ⟨[]⟩).1 0
    (by decide) rfl

/-! ### Shared auth lemmas -/

lemma verify_auth_some_bearer (t s : String) (ht : t ≠ "") :
    App.verify_auth (some t) ("Bearer " ++ s)
      = if strBytes (pyStrip s) = strBytes t then Except.ok ()
        else Except.error 403 := by
  have h1 : ¬ ((some t : Option String) = none
      ∨ (some t : Option String) = some "") := by simp [ht]
  have h2 : App.isBearer ("Bearer " ++ s) = true := App.isBearer_append s
  simp [App.verify_auth, h1, h2, App.bearerToken_append, ht]

lemma verify_auth_some_bearer_str (t s : String) (ht : t ≠ "") :
    App.verify_auth (some t) ("Bearer " ++ s)
      = if pyStrip s = t then Except.ok () else Except.error 403 := by
  rw [verify_auth_some_bearer t s ht]
  by_cases hb : pyStrip s = t
  · simp [hb]
  · have hbb : strBytes (pyStrip s) ≠ strBytes t := fun hc => hb (strBytes_inj hc)
    simp [hb, hbb]

/-- **C2 (counterexample).** A `"text"` key in caller-supplied metadata
**does** displace the item's own text: ingesting
`{id: "pid", text: "x", metadata: {"text": "evil", "source": "doc1"}}`
stores a payload whose `"text"` entry is `"evil"`, and the chunk mapped
from a hit carrying that payload has text `"evil"`, not `"x"`. -/
theorem C2_counterexample :
    ∃ c ∈ ((App.upsert_items (fun _ => [(1:Rat)]) "u"
        [⟨some "pid", "x",
          some [("text", App.PVal.str "evil"),
                ("source", App.PVal.str "doc1")]⟩] ⟨[]⟩).1).collections,
      ∃ p ∈ c.points,
        App.lookupP p.payload "text" = some (App.PVal.str "evil") ∧
        (App.hitToChunk ⟨p.id, 1, some p.payload⟩).text ≠ App.PVal.str "x" := by
  decide

set_option maxRecDepth 40000 in
/-- **C2 (amended, proved).** Ingesting `{text: "x", metadata:
{"source": "doc1"}}` and retrieving it as a hit yields a chunk whose
metadata contains `{"source": "doc1"}` and whose text is `"x"`; in general
the stored payload's `"text"` entry is the item's own text when the
caller-supplied metadata has no `"text"` key, and is the metadata's value
when it has one (the metadata displaces the item's text — see
`C2_counterexample`). -/
theorem C2_metadata_roundtrip :
    (∀ (t : String) (m : App.Payload), App.lastVal m "text" = none →
      App.lookupP (App.mkPayload t m) "text" = some (App.PVal.str t)) ∧
    (∀ (t : String) (m : App.Payload) (v : App.PVal),
      App.lastVal m "text" = some v →
      App.lookupP (App.mkPayload t m) "text" = some v) ∧
    (∃ c ∈ ((App.upsert_items (fun _ => [(1:Rat)]) "u"
        [⟨none, "x", some [("source", App.PVal.str "doc1")]⟩]
        ⟨[]⟩).1).collections,
      ∃ p ∈ c.points,
        (App.hitToChunk ⟨p.id, 1, some p.payload⟩).text = App.PVal.str "x" ∧
        App.lookupP (App.hitToChunk ⟨p.id, 1, some p.payload⟩).metadata
          "source" = some (App.PVal.str "doc1")) := by
  refine ⟨?_, ?_, ?_⟩
  · intro t m h
    rw [App.lookupP_mkPayload, h]
    rfl
  · intro t m v h
    rw [App.lookupP_mkPayload, h]
    rfl
  · decide

/-- **C2 (witness).** The payload semantics at concrete metadata maps:
without a `"text"` key the item text survives; with one, the metadata
value is stored. -/
theorem C2_witness :
    App.lookupP (App.mkPayload "x" [("source", App.PVal.str "doc1")]) "text"
      = some (App.PVal.str "x") ∧
    App.lookupP (App.mkPayload "x" [("text", App.PVal.str "evil")]) "text"
      = some (App.PVal.str "evil") :=
  ⟨C2_metadata_roundtrip.1 "x" [("source", App.PVal.str "doc1")] (by decide),
   C2_metadata_roundtrip.2.1 "x" [("text", App.PVal.str "evil")]
     (App.PVal.str "evil") (by decide)⟩

/-- **C3 (counterexample).** A Bearer token differing from the configured
one does not always yield 403: with configured token `"secret"`, the header
`"Bearer secret "` presents the token `"secret "` — different from the
configured token — yet the request succeeds, because `verify_auth` strips
surrounding whitespace from the presented token before comparing. -/
theorem C3_counterexample :
    "secret " ≠ "secret" ∧
    App.verify_auth (some "secret") "Bearer secret " = Except.ok () := by
  exact ⟨by decide, rfl⟩

/-- **C3 (amended, proved).** With a configured non-empty token `t`, a
request with header `"Bearer " ++ s` succeeds exactly when the presented
token stripped of surrounding whitespace equals `t` (in particular
`"Bearer " ++ t` succeeds when `t` has no surrounding whitespace); a Bearer
token whose stripped value differs from `t` yields 403; a missing or
non-Bearer header yields 401; with no token configured every request
succeeds. -/
theorem C3_verify_auth (t : String) (ht : t ≠ "") :
    (∀ s, App.verify_auth (some t) ("Bearer " ++ s) = Except.ok ()
        ↔ pyStrip s = t) ∧
    (∀ s, pyStrip s ≠ t →
      App.verify_auth (some t) ("Bearer " ++ s) = Except.error 403) ∧
    (∀ auth, App.isBearer auth = false →
      App.verify_auth (some t) auth = Except.error 401) ∧
    (∀ auth, App.verify_auth none auth = Except.ok ()) := by
  refine ⟨?_, ?_, ?_, ?_⟩
  · intro s
    rw [verify_auth_some_bearer_str t s ht]
    by_cases hb : pyStrip s = t <;> simp [hb]
  · intro s hs
    rw [verify_auth_some_bearer_str t s ht]
    simp [hs]
  · intro auth hbear
    have h1 : ¬ ((some t : Option String) = none
        ∨ (some t : Option String) = some "") := by simp [ht]
    simp [App.verify_auth, h1, hbear, ht]
  · intro auth
    simp [App.verify_auth]

/-- **C3 (witness).** The four auth behaviours at the spec's concrete
token `"secret"`. -/
theorem C3_witness :
    App.verify_auth (some "secret") ("Bearer " ++ "secret") = Except.ok () ∧
    App.verify_auth (some "secret") ("Bearer " ++ "wrong") = Except.error 403 ∧
    App.verify_auth (some "secret") "" = Except.error 401 ∧
    App.verify_auth none "" = Except.ok () :=
  ⟨((C3_verify_auth "secret" (by decide)).1 "secret").mpr (by decide),
   (C3_verify_auth "secret" (by decide)).2.1 "wrong" (by decide),
   (C3_verify_auth "secret" (by decide)).2.2.1 "" (by decide),
   (C3_verify_auth "secret" (by decide)).2.2.2 ""⟩

/-- **C4 (proved).** Every raw store hit is mapped to exactly one chunk, in
the store's order: the chunk's id is the hit's id, its text is the hit
payload's `"text"` value (empty string when absent, with a missing payload
treated as the empty payload), its metadata is the payload with the
`"text"` key removed (order preserved), and its score is the hit's score. -/
theorem C4_hit_mapping (oracle : String → App.Vec) (f : App.SearchFn)
    (q : String) (k : Nat) (thr : Option Rat) (s : App.StoreState) :
    (App.retrieve oracle f q k thr s).2.length
      = (App.storeHits oracle f q k thr s).length ∧
    ∀ j (hj : j < (App.storeHits oracle f q k thr s).length),
      ((App.retrieve oracle f q k thr s).2.getD j App.chunk0).id
          = ((App.storeHits oracle f q k thr s).get ⟨j, hj⟩).id ∧
      ((App.retrieve oracle f q k thr s).2.getD j App.chunk0).text
          = (App.lookupP
              (((App.storeHits oracle f q k thr s).get ⟨j, hj⟩).payload.getD [])
              "text").getD (App.PVal.str "") ∧
      ((App.retrieve oracle f q k thr s).2.getD j App.chunk0).metadata
          = (((App.storeHits oracle f q k thr s).get ⟨j, hj⟩).payload.getD
              []).filter (fun kv => ¬ kv.1 = "text") ∧
      ((App.retrieve oracle f q k thr s).2.getD j App.chunk0).score
          = ((App.storeHits oracle f q k thr s).get ⟨j, hj⟩).score := by
  simp only [App.storeHits]
  rw [App.retrieve_eq]
  constructor
  · simp
  · intro j hj
    rw [getD_map_lt _ _ j hj]
    simp [App.hitToChunk]

/-- **C4 (witness).** A concrete hit with payload
`{"text": "hello", "k": "v"}` maps to a chunk with text `"hello"`. -/
theorem C4_witness :
    ((App.retrieve (fun _ => [])
        (fun _ _ _ _ => [⟨"h1", 2,
          some [("text", App.PVal.str "hello"), ("k", App.PVal.str "v")]⟩])
        "q" 5 none ⟨[]⟩).2.getD 0 App.chunk0).text = App.PVal.str "hello" :=
  (((C4_hit_mapping (fun _ => [])
      (fun _ _ _ _ => [⟨"h1", 2,
        some [("text", App.PVal.str "hello"), ("k", App.PVal.str "v")]⟩])
      "q" 5 none ⟨[]⟩).2 0 (by decide)).2.1).trans (by decide)

/-- **C5 (proved).** Assuming the external store honors the limit and the
threshold it is passed (the claim's stated assumption), every query returns
at most `top_k` results, and when a threshold is supplied every returned
score is at least the threshold. -/
theorem C5_topk_threshold (oracle : String → App.Vec) (f : App.SearchFn)
    (q : String) (k : Nat) (thr : Option Rat) (s : App.StoreState)
    (hlim : ∀ st (v : App.Vec) n t, (f st v n t).length ≤ n)
    (hthr : ∀ st (v : App.Vec) n t r, r ∈ f st v n (some t) → t ≤ r.score) :
    (App.retrieve oracle f q k thr s).2.length ≤ k ∧
    ∀ c ∈ (App.retrieve oracle f q k thr s).2,
      ∀ tv, thr = some tv → tv ≤ c.score := by
  rw [App.retrieve_eq]
  constructor
  · simpa [App.search_vectors] using
      hlim (App.ensure_collection s) (oracle q) k thr
  · intro c hc tv htv
    subst htv
    simp only [List.mem_map] at hc
    obtain ⟨h, hh, rfl⟩ := hc
    simp only [App.search_vectors] at hh
    simpa [App.hitToChunk] using
      hthr (App.ensure_collection s) (oracle q) k tv h hh

/-- **C5 (witness).** A concrete well-behaved engine (`demoSearch`)
satisfies both assumptions, and querying a one-point store through it
meets the bound and the threshold. -/
theorem C5_witness :
    (App.retrieve (fun _ => []) App.demoSearch "q" 2 (some 1)
        App.demoState).2.length ≤ 2 ∧
    ∀ c ∈ (App.retrieve (fun _ => []) App.demoSearch "q" 2 (some 1)
        App.demoState).2,
      ∀ tv, (some (1:Rat)) = some tv → tv ≤ c.score :=
  C5_topk_threshold (fun _ => []) App.demoSearch "q" 2 (some 1) App.demoState
    App.demoSearch_lim App.demoSearch_thr

/-- **C6 (counterexample).** A query can mutate stored state: on a store
with no collections, `retrieve` (which calls `ensure_collection`) creates
the configured collection, so the set of collections after the query
differs from the set before it. -/
theorem C6_counterexample :
    (App.retrieve (fun _ => []) (fun _ _ _ _ => []) "q" 5 none ⟨[]⟩).1
      ≠ ⟨[]⟩ := by
  decide

/-- **C6 (amended, proved).** A query never touches stored points: when the
configured collection already exists the store state is unchanged, and in
general the only possible change is appending the configured empty
collection (`ensure_collection`'s creation) — no point is added, removed,
or modified. -/
theorem C6_retrieve_state (oracle : String → App.Vec) (f : App.SearchFn)
    (q : String) (k : Nat) (thr : Option Rat) (s : App.StoreState) :
    (App.QDRANT_COLLECTION ∈ s.collections.map (fun c => c.name) →
      (App.retrieve oracle f q k thr s).1 = s) ∧
    ((App.retrieve oracle f q k thr s).1.collections = s.collections ∨
      (App.retrieve oracle f q k thr s).1.collections
        = s.collections
            ++ [⟨App.QDRANT_COLLECTION, App.EMBED_DIM,
                 App.DistKind.cosine, []⟩]) := by
  rw [App.retrieve_eq]
  constructor
  · intro hmem
    simp [App.ensure_collection, hmem]
  · by_cases hmem : App.QDRANT_COLLECTION ∈ s.collections.map (fun c => c.name)
    · left
      simp [App.ensure_collection, hmem]
    · right
      simp [App.ensure_collection, hmem]

/-- **C6 (witness).** On a store already holding the configured collection,
a query leaves the state untouched. -/
theorem C6_witness :
    (App.retrieve (fun _ => []) (fun _ _ _ _ => []) "q" 5 none
        App.demoState).1 = App.demoState :=
  (C6_retrieve_state (fun _ => []) (fun _ _ _ _ => []) "q" 5 none
    App.demoState).1 (by decide)

/-- **C8 (proved).** `ensure_collection` is idempotent: it creates the
configured collection — with dimensionality `EMBED_DIM = 1536` and cosine
distance — only when the name is absent from the store's collection list;
when the name is present it is a no-op, so a second call never changes the
state reached by the first. -/
theorem C8_ensure_collection_idempotent :
    App.EMBED_DIM = 1536 ∧
    (∀ s : App.StoreState,
      App.ensure_collection (App.ensure_collection s)
        = App.ensure_collection s) ∧
    (∀ s : App.StoreState,
      App.QDRANT_COLLECTION ∈ s.collections.map (fun c => c.name) →
        App.ensure_collection s = s) ∧
    (∀ s : App.StoreState,
      App.QDRANT_COLLECTION ∉ s.collections.map (fun c => c.name) →
        App.ensure_collection s
          = ⟨s.collections
              ++ [⟨App.QDRANT_COLLECTION, 1536, App.DistKind.cosine, []⟩]⟩) := by
  refine ⟨rfl, ?_, ?_, ?_⟩
  · intro s
    by_cases hmem : App.QDRANT_COLLECTION ∈ s.collections.map (fun c => c.name)
    · simp [App.ensure_collection, hmem]
    · simp only [App.ensure_collection, hmem, if_false]
      have hmem2 : App.QDRANT_COLLECTION ∈
          (s.collections
            ++ [(⟨App.QDRANT_COLLECTION, App.EMBED_DIM,
                  App.DistKind.cosine, []⟩ : App.Collection)]).map
            (fun c => c.name) := by
        simp
      simp [hmem2]
  · intro s hmem
    simp [App.ensure_collection, hmem]
  · intro s hmem
    simp [App.ensure_collection, hmem, App.EMBED_DIM]

/-- **C8 (witness).** On a store already holding the collection,
`ensure_collection` is the identity. -/
theorem C8_witness :
    App.ensure_collection App.demoState = App.demoState :=
  C8_ensure_collection_idempotent.2.2.1 App.demoState (by decide)

/-- **C9 (proved).** `embed_texts` returns exactly one vector per input
text, in input order, and issues exactly one call to the external embedding
endpoint per text — the `j`-th call carries the single input `texts[j]`
(no batching). -/
theorem C9_embed_calls (oracle : String → App.Vec) (ts : List String) :
    (App.embed_texts oracle ts).1.length = ts.length ∧
    (App.embed_texts oracle ts).2.length = ts.length ∧
    ∀ j (hj : j < ts.length),
      (App.embed_texts oracle ts).1.getD j [] = oracle (ts.get ⟨j, hj⟩) ∧
      (App.embed_texts oracle ts).2.getD j ⟨"", ""⟩
        = ⟨App.EMBEDDING_MODEL, ts.get ⟨j, hj⟩⟩ := by
  rw [App.embed_texts_eq]
  refine ⟨by simp, by simp, ?_⟩
  intro j hj
  exact ⟨getD_map_lt oracle ts j hj [],
    getD_map_lt (fun t => (⟨App.EMBEDDING_MODEL, t⟩ : App.EmbedCall))
      ts j hj ⟨"", ""⟩⟩

/-- **C9 (witness).** Embedding `["a", "b"]` issues a second call whose
single input is `"b"`. -/
theorem C9_witness :
    (App.embed_texts (fun _ => [(1:Rat)]) ["a", "b"]).2.getD 1 ⟨"", ""⟩
      = ⟨App.EMBEDDING_MODEL, "b"⟩ :=
  ((C9_embed_calls (fun _ => [(1:Rat)]) ["a", "b"]).2.2 1 (by decide)).2
